import Mathlib

/-!
Shallow embedding of the Plausible Analytics MCP HTTP server
(`src/http-server.ts`, `src/firebase-analytics.ts`).

JavaScript objects used as string-keyed counter maps are modelled as
association lists `List (String × Int)`; JSON-like values (the input to
`sanitizeObject`) are modelled by the inductive `JVal`; the ambient clock
(`new Date().toISOString()`) is passed in explicitly as a string; the local
analytics file and the remote (Firebase) document are modelled as
`Option Analytics`.  Server instances (`McpServer` objects) are identified
by natural numbers issued from a counter, so that "the identical instance"
is expressible.
-/

namespace McpPlausible

/-- `MAX_RECENT_CALLS` from http-server.ts line 30. -/
def MAX_RECENT_CALLS : Nat := 100

/-! ### Counter maps

`analytics.requestsByMethod[m] = (analytics.requestsByMethod[m] || 0) + 1`
and friends: an association-list update that increments an existing key's
count (a missing or `0` count reads as `0`) or appends the key with count 1. -/

/-- Increment the count stored under `k`, inserting `(k, 1)` when `k` is
absent (JavaScript `m[k] = (m[k] || 0) + 1`; on an integer count `v`,
`(v || 0) + 1 = v + 1` since `0 || 0 = 0`). -/
def bump : List (String × Int) → String → List (String × Int)
  | [], k => [(k, 1)]
  | (k', v) :: rest, k =>
      if k' = k then (k', v + 1) :: rest else (k', v) :: bump rest k

/-- Sum of the counts of a counter map (used to state spec properties). -/
def sumValues (m : List (String × Int)) : Int :=
  (m.map Prod.snd).sum

/-! ### Analytics state (firebase-analytics.ts lines 12-28) -/

/-- One entry of `recentToolCalls` (http-server.ts lines 174-179). -/
structure ToolCallRecord where
  tool : String
  timestamp : String
  clientIp : String
  userAgent : String
deriving DecidableEq, Repr

/-- The `Analytics` interface (firebase-analytics.ts lines 12-28). -/
structure Analytics where
  serverStartTime : String
  totalRequests : Int
  totalToolCalls : Int
  requestsByMethod : List (String × Int)
  requestsByEndpoint : List (String × Int)
  toolCalls : List (String × Int)
  recentToolCalls : List ToolCallRecord
  clientsByIp : List (String × Int)
  clientsByUserAgent : List (String × Int)
  hourlyRequests : List (String × Int)
deriving DecidableEq, Repr

/-- The initial analytics value (http-server.ts lines 66-77); `now` models
`new Date().toISOString()` at module initialisation. -/
def initialAnalytics (now : String) : Analytics :=
  { serverStartTime := now
    totalRequests := 0
    totalToolCalls := 0
    requestsByMethod := []
    requestsByEndpoint := []
    toolCalls := []
    recentToolCalls := []
    clientsByIp := []
    clientsByUserAgent := []
    hourlyRequests := [] }

/-! ### Requests -/

/-- The parts of an Express `Request` the server reads.  `time` models
`new Date().toISOString()` at the moment the request is handled.  A header
or query parameter that is absent is `none`; present-but-empty is
`some ""` (JavaScript distinguishes them only through truthiness, which
treats both as false). -/
structure HttpRequest where
  method : String
  query_apiKey : Option String
  query_apiUrl : Option String
  header_apiKey : Option String
  header_apiUrl : Option String
  header_forwardedFor : Option String
  header_userAgent : Option String
  ip : Option String
  body_method : Option String
  body_paramsName : Option String
  time : String
deriving DecidableEq, Repr

/-- JavaScript `v || d` on an optional string: an absent or empty string is
falsy and falls through to the default. -/
def orDefault (v : Option String) (d : String) : String :=
  match v with
  | some s => if s = "" then d else s
  | none => d

/-- Client IP resolution
(`(req.headers['x-forwarded-for'])?.split(',')[0]?.trim() || req.ip || 'unknown'`,
http-server.ts lines 159 and 177). -/
def clientIpOf (fwd ip : Option String) : String :=
  let fromFwd :=
    match fwd with
    | some f => ((f.splitOn ",").headD "").trim
    | none => ""
  if fromFwd = "" then orDefault ip "unknown" else fromFwd

/-- `trackRequest` (http-server.ts lines 151-168). -/
def trackRequest (req : HttpRequest) (endpoint : String) (s : Analytics) : Analytics :=
  { s with
    totalRequests := s.totalRequests + 1
    requestsByMethod := bump s.requestsByMethod req.method
    requestsByEndpoint := bump s.requestsByEndpoint endpoint
    clientsByIp := bump s.clientsByIp (clientIpOf req.header_forwardedFor req.ip)
    clientsByUserAgent :=
      bump s.clientsByUserAgent ((orDefault req.header_userAgent "unknown").take 50)
    hourlyRequests := bump s.hourlyRequests (req.time.take 13) }

/-- The record pushed by `trackToolCall` (http-server.ts lines 174-179). -/
def mkToolCallRecord (toolName : String) (req : HttpRequest) : ToolCallRecord :=
  { tool := toolName
    timestamp := req.time
    clientIp := clientIpOf req.header_forwardedFor req.ip
    userAgent := (orDefault req.header_userAgent "unknown").take 50 }

/-- `trackToolCall` (http-server.ts lines 170-185): `unshift` the new
record, then `pop` the last entry when the length exceeds
`MAX_RECENT_CALLS`. -/
def trackToolCall (toolName : String) (req : HttpRequest) (s : Analytics) : Analytics :=
  let withCall := mkToolCallRecord toolName req :: s.recentToolCalls
  { s with
    totalToolCalls := s.totalToolCalls + 1
    toolCalls := bump s.toolCalls toolName
    recentToolCalls :=
      if withCall.length > MAX_RECENT_CALLS then withCall.dropLast else withCall }

/-- A sequence of `trackToolCall` invocations, oldest first. -/
def trackToolCalls (calls : List (String × HttpRequest)) (s : Analytics) : Analytics :=
  calls.foldl (fun a c => trackToolCall c.1 c.2 a) s

/-- A sequence of `trackRequest` invocations (request, endpoint label),
oldest first. -/
def trackRequests (reqs : List (HttpRequest × String)) (s : Analytics) : Analytics :=
  reqs.foldl (fun a r => trackRequest r.1 r.2 a) s

/-! ### Key sanitisation for the Firebase store
(http-server.ts lines 41-61) -/

/-- Membership in the character class of the regex `/[.#$/\[\]]/`. -/
def badChar (c : Char) : Bool :=
  c = '.' || c = '#' || c = '$' || c = '/' || c = '[' || c = ']'

/-- What `key.replace(/[.#$/\[\]]/g, '_')` does to one character. -/
def sanitizeChar (c : Char) : Char := if badChar c then '_' else c

/-- `sanitizeKey` (http-server.ts lines 42-44): replace every occurrence of
`.`, `#`, `$`, `/`, `[`, `]` with `_`. -/
def sanitizeKey (k : String) : String := String.mk (k.data.map sanitizeChar)

/-- A JSON-like value: the `unknown` input of `sanitizeObject`.
Primitives (strings, numbers, booleans, `null`) are collapsed into `prim`
since `sanitizeObject` returns them untouched. -/
inductive JVal where
  | prim (s : String)
  | arr (elems : List JVal)
  | obj (entries : List (String × JVal))

/-- JavaScript object property assignment `o[k] = v`: when `k` is already
a key its value is overwritten in place (the slot keeps its position),
otherwise the new property is appended in insertion order. -/
def objInsert {α : Type} : List (String × α) → String → α → List (String × α)
  | [], k, v => [(k, v)]
  | kv' :: rest, k, v =>
      if kv'.1 = k then (kv'.1, v) :: rest else kv' :: objInsert rest k v

/-- Building a JavaScript object by assigning the listed properties in
order into an initially empty object: on key collisions the last write
wins, and a value assigned under an earlier occurrence of the key is
lost. -/
def objFromList {α : Type} (kvs : List (String × α)) : List (String × α) :=
  kvs.foldl (fun acc kv => objInsert acc kv.1 kv.2) []

mutual

/-- `sanitizeObject` (http-server.ts lines 46-61): non-objects are returned
as-is, arrays are mapped over, and object entries are assigned one by one
into a fresh object (`sanitized[sanitizedKey] = sanitizeObject(value)`),
so two keys that sanitise to the same key collide and the later assignment
overwrites the earlier one. -/
def sanitizeObject : JVal → JVal
  | .prim s => .prim s
  | .arr xs => .arr (sanitizeArr xs)
  | .obj kvs => .obj (objFromList (sanitizeObj kvs))

/-- `obj.map(sanitizeObject)` over an array (http-server.ts line 52). -/
def sanitizeArr : List JVal → List JVal
  | [] => []
  | x :: xs => sanitizeObject x :: sanitizeArr xs

/-- The per-entry images `(sanitizeKey key, sanitizeObject value)` of the
`Object.entries` loop (http-server.ts lines 55-60), in iteration order and
before the object assignments merge colliding keys. -/
def sanitizeObj : List (String × JVal) → List (String × JVal)
  | [] => []
  | kv :: kvs => (sanitizeKey kv.1, sanitizeObject kv.2) :: sanitizeObj kvs

end

mutual

/-- A value all of whose mapping keys (recursively) avoid the disallowed
characters, so that `sanitizeObject` has nothing to rewrite. -/
def cleanVal : JVal → Bool
  | .prim _ => true
  | .arr xs => cleanArr xs
  | .obj kvs => cleanObj kvs

/-- `cleanVal` over an array's elements. -/
def cleanArr : List JVal → Bool
  | [] => true
  | x :: xs => cleanVal x && cleanArr xs

/-- `cleanVal` over an object's entries: the key avoids the disallowed
characters and is distinct from the later keys (a real JavaScript object
cannot carry duplicate keys), and the value is clean. -/
def cleanObj : List (String × JVal) → Bool
  | [] => true
  | kv :: kvs => kv.1.data.all (fun c => !badChar c)
      && !((kvs.map Prod.fst).contains kv.1) && cleanVal kv.2 && cleanObj kvs

end

/-- One counter map under `sanitizeObject`: keys rewritten through
`sanitizeKey` and the entries assigned in order into a fresh object, so
colliding sanitised keys merge with the last write winning. -/
def sanitizeCounterMap (m : List (String × Int)) : List (String × Int) :=
  objFromList (m.map fun kv => (sanitizeKey kv.1, kv.2))

/-- What `sanitizeObject(analytics) as Analytics` does to an `Analytics`
value: the record's own field names contain no disallowed character, so
only the keys of the six counter maps are rewritten (colliding sanitised
keys merging, last write wins); counts, strings, and the
`recentToolCalls` entries pass through unchanged. -/
def sanitizeAnalytics (s : Analytics) : Analytics :=
  { s with
    requestsByMethod := sanitizeCounterMap s.requestsByMethod
    requestsByEndpoint := sanitizeCounterMap s.requestsByEndpoint
    toolCalls := sanitizeCounterMap s.toolCalls
    clientsByIp := sanitizeCounterMap s.clientsByIp
    clientsByUserAgent := sanitizeCounterMap s.clientsByUserAgent
    hourlyRequests := sanitizeCounterMap s.hourlyRequests }

/-! ### Dual-mode persistence
(http-server.ts lines 89-139, firebase-analytics.ts lines 93-132) -/

/-- Result of `FirebaseAnalytics.saveAnalytics`
(firebase-analytics.ts lines 121-132).  `threw` records whether an
exception escaped to the caller; the method catches its own `set` failure,
so it is `false` on every path. -/
structure FirebaseSaveResult where
  attempted : Bool
  threw : Bool
  stored : Option Analytics
deriving DecidableEq, Repr

/-- `FirebaseAnalytics.saveAnalytics(analytics)`
(firebase-analytics.ts lines 121-132): a no-op unless initialised;
otherwise issue the `set` and catch (log) any failure.  `setFails` models
whether the remote `set` call fails. -/
def firebaseSaveAnalytics (initialized setFails : Bool)
    (payload : Analytics) (prevRemote : Option Analytics) : FirebaseSaveResult :=
  if !initialized then
    { attempted := false, threw := false, stored := prevRemote }
  else if setFails then
    { attempted := true, threw := false, stored := prevRemote }
  else
    { attempted := true, threw := false, stored := some payload }

/-- `fs.writeFileSync(ANALYTICS_FILE, JSON.stringify(analytics, null, 2))`
(http-server.ts line 132), which throws on failure. -/
def writeLocalFile (localFails : Bool) (s : Analytics) :
    Except Unit (Option Analytics) :=
  if localFails then Except.error () else Except.ok (some s)

/-- Outcome of one `saveAnalytics` invocation. -/
structure SaveResult where
  remote : FirebaseSaveResult
  localWriteAttempted : Bool
  localFileContents : Option Analytics
  raised : Bool
deriving DecidableEq, Repr

/-- `saveAnalytics` (http-server.ts lines 122-139): when Firebase is
initialised, sanitise the state and hand it to
`FirebaseAnalytics.saveAnalytics`; then write the unsanitised state to the
local JSON file; the whole body is wrapped in a try/catch that only logs,
so `raised` is `false` on every path.  The local write is reached unless
the remote step threw. -/
def saveAnalytics (initialized setFails localFails : Bool) (s : Analytics)
    (prevRemote prevLocal : Option Analytics) : SaveResult :=
  let fb : FirebaseSaveResult :=
    if initialized then
      firebaseSaveAnalytics initialized setFails (sanitizeAnalytics s) prevRemote
    else
      { attempted := false, threw := false, stored := prevRemote }
  if fb.threw then
    { remote := fb, localWriteAttempted := false
      localFileContents := prevLocal, raised := false }
  else
    match writeLocalFile localFails s with
    | Except.error _ =>
        { remote := fb, localWriteAttempted := true
          localFileContents := prevLocal, raised := false }
    | Except.ok c =>
        { remote := fb, localWriteAttempted := true
          localFileContents := c, raised := false }

/-- The local-file branch of `loadAnalytics` (http-server.ts lines
102-115): adopt the parsed file, re-stamping `serverStartTime` only when
the stored value is falsy (`loaded.serverStartTime || new Date()...`,
line 109); keep the current in-memory state when the file is absent. -/
def loadFromLocalFile (localFile : Option Analytics) (now : String)
    (current : Analytics) : Analytics :=
  match localFile with
  | some loaded =>
      { loaded with
        serverStartTime :=
          if loaded.serverStartTime = "" then now else loaded.serverStartTime }
  | none => current

/-- `loadAnalytics` (http-server.ts lines 89-120): Firebase first when
initialised and non-null, else the local file, else the current state. -/
def loadAnalytics (fbInitialized : Bool) (fbData localFile : Option Analytics)
    (now : String) (current : Analytics) : Analytics :=
  match fbInitialized, fbData with
  | true, some d => d
  | true, none => loadFromLocalFile localFile now current
  | false, _ => loadFromLocalFile localFile now current

/-! ### /analytics/import (http-server.ts lines 372-393) -/

/-- The merge performed by `POST /analytics/import` (http-server.ts lines
376-381): each submitted counter is added when truthy (a JavaScript number
is falsy exactly when it is `0`).  The handler first runs
`trackRequest(req, '/analytics/import')`. -/
def importMerge (body_totalRequests body_totalToolCalls : Option Int)
    (s : Analytics) : Analytics :=
  let s1 :=
    match body_totalRequests with
    | some v => if v = 0 then s else { s with totalRequests := s.totalRequests + v }
    | none => s
  match body_totalToolCalls with
  | some v => if v = 0 then s1 else { s1 with totalToolCalls := s1.totalToolCalls + v }
  | none => s1

/-- The `POST /analytics/import` handler's effect on the analytics state
(http-server.ts lines 372-393): track the request, then merge the body. -/
def handleAnalyticsImport (req : HttpRequest)
    (body_totalRequests body_totalToolCalls : Option Int)
    (s : Analytics) : Analytics :=
  importMerge body_totalRequests body_totalToolCalls
    (trackRequest req "/analytics/import" s)

/-! ### The credential-scoped server cache and the /mcp handler
(http-server.ts lines 275, 592-681) -/

/-- The `mcpServers` map (http-server.ts line 275), with `nextId` issuing
fresh identities for newly constructed `McpServer` objects. -/
structure ServerCache where
  entries : List (String × Nat)
  nextId : Nat
deriving DecidableEq, Repr

/-- The credential key `` `${apiUrl}:${apiKey.substring(0, 8)}` ``
(http-server.ts line 653). -/
def credentialsKey (apiUrl apiKey : String) : String :=
  apiUrl ++ ":" ++ apiKey.take 8

/-- Lines 653-658 of http-server.ts: look the credential key up in
`mcpServers`; on a miss, construct a server (a fresh identity) and insert
it under the key. -/
def getOrCreateMcpServer (cache : ServerCache) (apiUrl apiKey : String) :
    Nat × ServerCache :=
  let key := credentialsKey apiUrl apiKey
  match cache.entries.lookup key with
  | some sid => (sid, cache)
  | none =>
      (cache.nextId,
        { entries := (key, cache.nextId) :: cache.entries
          nextId := cache.nextId + 1 })

/-- `mcpMethod === 'initialize' || mcpMethod === 'tools/list' ||
mcpMethod === 'notifications/initialized'` (http-server.ts lines 620-622). -/
def isDiscoveryMethod (m : String) : Bool :=
  m = "initialize" || m = "tools/list" || m = "notifications/initialized"

/-- The tool name extracted by
`req.body && req.body.method === 'tools/call' && req.body.params?.name`
(http-server.ts line 602); `none` when the guard is falsy. -/
def toolCallNameOf (req : HttpRequest) : Option String :=
  if req.body_method = some "tools/call" then
    match req.body_paramsName with
    | some n => if n = "" then none else some n
    | none => none
  else none

/-- How the /mcp handler responds (the transport-level happy path is
collapsed into `handled` with the identity of the serving `McpServer`). -/
inductive McpResponse where
  | handled (serverId : Nat)
  | missingApiKey400
deriving DecidableEq, Repr

/-- Everything one /mcp request changes or constructs. -/
structure McpOutcome where
  response : McpResponse
  analytics : Analytics
  cache : ServerCache
  serversCreated : Nat
  transportsCreated : Nat
  demoServed : Bool
deriving DecidableEq, Repr

/-- The `app.all('/mcp')` handler (http-server.ts lines 592-681):
track the request (and the tool call when the body is a truthy-named
`tools/call`), resolve credentials with query-over-header-over-default
precedence, serve credential-less discovery methods with a throwaway demo
server, reject other credential-less calls with a 400, and otherwise
resolve the cached server and wire a fresh transport to it. -/
def handleMcp (defaultApiKey defaultApiUrl : String) (req : HttpRequest)
    (s : Analytics) (cache : ServerCache) : McpOutcome :=
  let s1 := trackRequest req "/mcp" s
  let s2 :=
    match toolCallNameOf req with
    | some n => trackToolCall n req s1
    | none => s1
  let apiKey := orDefault req.query_apiKey (orDefault req.header_apiKey defaultApiKey)
  let apiUrl := orDefault req.query_apiUrl (orDefault req.header_apiUrl defaultApiUrl)
  let hasCredentials : Bool := apiKey ≠ ""
  let isDiscoveryRequest : Bool :=
    !hasCredentials &&
      match req.body_method with
      | some m => (m ≠ "" : Bool) && isDiscoveryMethod m
      | none => false
  if isDiscoveryRequest then
    { response := McpResponse.handled cache.nextId
      analytics := s2
      cache := { cache with nextId := cache.nextId + 1 }
      serversCreated := 1
      transportsCreated := 1
      demoServed := true }
  else if apiKey = "" then
    { response := McpResponse.missingApiKey400
      analytics := s2
      cache := cache
      serversCreated := 0
      transportsCreated := 0
      demoServed := false }
  else
    let r := getOrCreateMcpServer cache apiUrl apiKey
    { response := McpResponse.handled r.1
      analytics := s2
      cache := r.2
      serversCreated := if cache.entries.lookup (credentialsKey apiUrl apiKey) = none then 1 else 0
      transportsCreated := 1
      demoServed := false }

/-! ### Concrete sample inputs (used to instantiate the theorems) -/

/-- A concrete credential-less `tools/call` request. -/
def sampleToolCallReq : HttpRequest :=
  { method := "POST"
    query_apiKey := none
    query_apiUrl := none
    header_apiKey := none
    header_apiUrl := none
    header_forwardedFor := none
    header_userAgent := some "curl/8.0"
    ip := some "127.0.0.1"
    body_method := some "tools/call"
    body_paramsName := some "hello"
    time := "2026-01-01T00:00:00.000Z" }

/-- A concrete credential-less `tools/list` (discovery) request. -/
def sampleDiscoveryReq : HttpRequest :=
  { sampleToolCallReq with body_method := some "tools/list", body_paramsName := none }

/-- A concrete credential-less `GET` request with no MCP body. -/
def sampleBodylessReq : HttpRequest :=
  { sampleToolCallReq with
    method := "GET", body_method := none, body_paramsName := none }

/-- An analytics value whose `serverStartTime` is the empty string (the
one falsy string), as a JavaScript value could hold. -/
def emptyStartState : Analytics :=
  { initialAnalytics "" with totalRequests := 7 }

/-- The `mcpServers` map at process start: empty, no identities issued. -/
def emptyCache : ServerCache :=
  { entries := [], nextId := 0 }

/-! ## Lemmas about key sanitisation -/

theorem sanitizeChar_idem (c : Char) : sanitizeChar (sanitizeChar c) = sanitizeChar c := by
  by_cases h : badChar c = true
  · have h1 : sanitizeChar c = '_' := by rw [sanitizeChar, if_pos h]
    rw [h1]
    decide
  · have h1 : sanitizeChar c = c := by rw [sanitizeChar, if_neg h]
    rw [h1]
    exact h1

theorem sanitizeChar_ne_slash (c : Char) : sanitizeChar c ≠ '/' := by
  by_cases h : badChar c = true
  · rw [sanitizeChar, if_pos h]
    decide
  · rw [sanitizeChar, if_neg h]
    intro hc
    rw [hc] at h
    exact h (by decide)

theorem sanitizeKey_idem (k : String) : sanitizeKey (sanitizeKey k) = sanitizeKey k := by
  simp only [sanitizeKey, List.map_map]
  congr 1
  exact List.map_congr_left fun c _ => sanitizeChar_idem c

theorem slash_not_mem_sanitizeKey (k : String) : '/' ∉ (sanitizeKey k).data := by
  simp only [sanitizeKey]
  intro hmem
  rcases List.mem_map.mp hmem with ⟨c, _, hc⟩
  exact sanitizeChar_ne_slash c hc

theorem sanitizeKey_of_clean (k : String)
    (h : ∀ c ∈ k.data, badChar c = false) : sanitizeKey k = k := by
  simp only [sanitizeKey]
  have h2 : k.data.map sanitizeChar = k.data := by
    conv_rhs => rw [← List.map_id k.data]
    exact List.map_congr_left fun c hc => by
      rw [sanitizeChar, if_neg (by simp [h c hc])]
      rfl
  rw [h2]

/-! ## Lemmas about JavaScript object assignment -/

theorem objInsert_mem {α : Type} : ∀ (m : List (String × α)) (k : String) (v : α)
    (kv : String × α), kv ∈ objInsert m k v → kv ∈ m ∨ kv = (k, v)
  | [], k, v, kv => fun h => Or.inr (by simpa [objInsert] using h)
  | a :: rest, k, v, kv => fun h => by
      by_cases hk : a.1 = k
      · simp only [objInsert, if_pos hk] at h
        rcases List.mem_cons.mp h with h1 | h1
        · exact Or.inr (by rw [h1, hk])
        · exact Or.inl (List.mem_cons_of_mem a h1)
      · simp only [objInsert, if_neg hk] at h
        rcases List.mem_cons.mp h with h1 | h1
        · exact Or.inl (by rw [h1]; exact List.mem_cons_self a rest)
        · rcases objInsert_mem rest k v kv h1 with h2 | h2
          · exact Or.inl (List.mem_cons_of_mem a h2)
          · exact Or.inr h2

theorem objInsert_of_not_mem {α : Type} : ∀ (m : List (String × α)) (k : String)
    (v : α), k ∉ m.map Prod.fst → objInsert m k v = m ++ [(k, v)]
  | [], k, v => fun _ => rfl
  | a :: rest, k, v => fun h => by
      have h1 : a.1 ≠ k := fun he => h (by rw [List.map_cons, ← he]; exact List.mem_cons_self _ _)
      have h2 : k ∉ rest.map Prod.fst :=
        fun hm => h (by rw [List.map_cons]; exact List.mem_cons_of_mem _ hm)
      simp only [objInsert, if_neg h1]
      rw [objInsert_of_not_mem rest k v h2]
      rfl

theorem objInsert_keys_mem {α : Type} (m : List (String × α)) (k : String) (v : α)
    (x : String) (h : x ∈ (objInsert m k v).map Prod.fst) :
    x ∈ m.map Prod.fst ∨ x = k := by
  rcases List.mem_map.mp h with ⟨kv, hkv, rfl⟩
  rcases objInsert_mem m k v kv hkv with h1 | h1
  · exact Or.inl (List.mem_map_of_mem Prod.fst h1)
  · exact Or.inr (by rw [h1])

theorem objInsert_keys_nodup {α : Type} : ∀ (m : List (String × α)) (k : String)
    (v : α), (m.map Prod.fst).Nodup → ((objInsert m k v).map Prod.fst).Nodup
  | [], k, v, _ => by simp [objInsert]
  | a :: rest, k, v, h => by
      rw [List.map_cons, List.nodup_cons] at h
      by_cases hk : a.1 = k
      · simp only [objInsert, if_pos hk, List.map_cons]
        exact List.nodup_cons.mpr h
      · simp only [objInsert, if_neg hk, List.map_cons]
        refine List.nodup_cons.mpr ⟨?_, objInsert_keys_nodup rest k v h.2⟩
        intro hmem
        rcases objInsert_keys_mem rest k v a.1 hmem with h1 | h1
        · exact h.1 h1
        · exact hk h1

theorem objFromList_go_subset {α : Type} : ∀ (kvs acc : List (String × α))
    (kv : String × α),
    kv ∈ List.foldl (fun a p => objInsert a p.1 p.2) acc kvs → kv ∈ acc ∨ kv ∈ kvs
  | [], _, _ => fun h => Or.inl h
  | p :: ps, acc, kv => fun h => by
      rcases objFromList_go_subset ps (objInsert acc p.1 p.2) kv h with h1 | h1
      · rcases objInsert_mem acc p.1 p.2 kv h1 with h2 | h2
        · exact Or.inl h2
        · refine Or.inr ?_
          rw [h2]
          exact List.mem_cons_self p ps
      · exact Or.inr (List.mem_cons_of_mem p h1)

theorem objFromList_subset {α : Type} (kvs : List (String × α)) (kv : String × α)
    (h : kv ∈ objFromList kvs) : kv ∈ kvs := by
  rcases objFromList_go_subset kvs [] kv h with h1 | h1
  · cases h1
  · exact h1

theorem objFromList_go_nodupKeys {α : Type} : ∀ (kvs acc : List (String × α)),
    (acc.map Prod.fst).Nodup →
    ((List.foldl (fun a p => objInsert a p.1 p.2) acc kvs).map Prod.fst).Nodup
  | [], _, h => h
  | p :: ps, acc, h =>
      objFromList_go_nodupKeys ps (objInsert acc p.1 p.2)
        (objInsert_keys_nodup acc p.1 p.2 h)

theorem objFromList_nodupKeys {α : Type} (kvs : List (String × α)) :
    ((objFromList kvs).map Prod.fst).Nodup :=
  objFromList_go_nodupKeys kvs [] (by simp)

theorem objFromList_go_of_nodup {α : Type} : ∀ (kvs acc : List (String × α)),
    ((acc ++ kvs).map Prod.fst).Nodup →
    List.foldl (fun a p => objInsert a p.1 p.2) acc kvs = acc ++ kvs
  | [], acc => fun _ => by simp
  | p :: ps, acc => fun h => by
      have h0 : (acc.map Prod.fst ++ p.1 :: ps.map Prod.fst).Nodup := by
        simpa using h
      rcases List.nodup_append.mp h0 with ⟨hA, hC, hdisj⟩
      have hknotin : p.1 ∉ acc.map Prod.fst :=
        fun hm => hdisj hm (List.mem_cons_self _ _)
      have hnd : (((acc ++ [(p.1, p.2)]) ++ ps).map Prod.fst).Nodup := by
        simpa using h
      show List.foldl (fun a q => objInsert a q.1 q.2) (objInsert acc p.1 p.2) ps
          = acc ++ p :: ps
      rw [objInsert_of_not_mem acc p.1 p.2 hknotin,
        objFromList_go_of_nodup ps (acc ++ [(p.1, p.2)]) hnd,
        List.append_assoc]
      rfl

theorem objFromList_self_of_nodup {α : Type} (kvs : List (String × α))
    (h : (kvs.map Prod.fst).Nodup) : objFromList kvs = kvs := by
  have h1 := objFromList_go_of_nodup kvs [] (by simpa using h)
  simpa [objFromList] using h1

/-! ## Lemmas about `sanitizeObject` -/

theorem sanitizeObj_eq_map : ∀ kvs : List (String × JVal),
    sanitizeObj kvs = kvs.map fun kv => (sanitizeKey kv.1, sanitizeObject kv.2)
  | [] => rfl
  | kv :: kvs => by rw [sanitizeObj, List.map_cons, sanitizeObj_eq_map kvs]

theorem sanitizeObj_fix : ∀ kvs : List (String × JVal),
    (∀ kv ∈ kvs, sanitizeKey kv.1 = kv.1 ∧ sanitizeObject kv.2 = kv.2) →
    sanitizeObj kvs = kvs
  | [] => fun _ => rfl
  | kv :: kvs => fun h => by
      have h1 := h kv (List.mem_cons_self _ _)
      rw [sanitizeObj, h1.1, h1.2,
        sanitizeObj_fix kvs fun p hp => h p (List.mem_cons_of_mem _ hp)]

mutual

theorem sanitizeObject_idem : ∀ v, sanitizeObject (sanitizeObject v) = sanitizeObject v
  | .prim _ => rfl
  | .arr xs => by rw [sanitizeObject, sanitizeObject, sanitizeArr_idem xs]
  | .obj kvs => by
      rw [sanitizeObject, sanitizeObject]
      have hfix : sanitizeObj (objFromList (sanitizeObj kvs))
          = objFromList (sanitizeObj kvs) := by
        apply sanitizeObj_fix
        intro kv hkv
        have hmem : kv ∈ sanitizeObj kvs :=
          objFromList_subset (sanitizeObj kvs) kv hkv
        rw [sanitizeObj_eq_map] at hmem
        rcases List.mem_map.mp hmem with ⟨kv0, hkv0, rfl⟩
        exact ⟨sanitizeKey_idem kv0.1, sanitizeObj_values_idem kvs kv0 hkv0⟩
      rw [hfix, objFromList_self_of_nodup _ (objFromList_nodupKeys _)]

theorem sanitizeArr_idem : ∀ xs, sanitizeArr (sanitizeArr xs) = sanitizeArr xs
  | [] => rfl
  | x :: xs => by
      rw [sanitizeArr, sanitizeArr, sanitizeObject_idem x, sanitizeArr_idem xs]

theorem sanitizeObj_values_idem : ∀ kvs : List (String × JVal), ∀ kv ∈ kvs,
    sanitizeObject (sanitizeObject kv.2) = sanitizeObject kv.2
  | [], kv', h => absurd h (List.not_mem_nil kv')
  | kv :: kvs, kv', h => by
      rcases List.mem_cons.mp h with h1 | h1
      · rw [h1]
        exact sanitizeObject_idem kv.2
      · exact sanitizeObj_values_idem kvs kv' h1

end

theorem cleanObj_parts (kv : String × JVal) (kvs : List (String × JVal))
    (h : cleanObj (kv :: kvs) = true) :
    (kv.1.data.all fun c => !badChar c) = true
    ∧ ((kvs.map Prod.fst).contains kv.1) = false
    ∧ cleanVal kv.2 = true ∧ cleanObj kvs = true := by
  simpa [cleanObj, Bool.and_eq_true, and_assoc, Bool.not_eq_true'] using h

theorem cleanObj_nodup : ∀ kvs : List (String × JVal), cleanObj kvs = true →
    (kvs.map Prod.fst).Nodup
  | [] => fun _ => by simp
  | kv :: kvs => fun h => by
      have h1 := cleanObj_parts kv kvs h
      rw [List.map_cons]
      refine List.nodup_cons.mpr ⟨?_, cleanObj_nodup kvs h1.2.2.2⟩
      intro hm
      have hc := h1.2.1
      rw [show (kvs.map Prod.fst).contains kv.1
          = List.elem kv.1 (kvs.map Prod.fst) from rfl] at hc
      rw [List.elem_iff.mpr hm] at hc
      cases hc

mutual

theorem sanitizeObject_of_clean : ∀ v, cleanVal v = true → sanitizeObject v = v
  | .prim _ => fun _ => rfl
  | .arr xs => fun h => by
      rw [sanitizeObject, sanitizeArr_of_clean xs (by simpa [cleanVal] using h)]
  | .obj kvs => fun h => by
      have hc : cleanObj kvs = true := by simpa [cleanVal] using h
      rw [sanitizeObject, sanitizeObj_of_clean kvs hc,
        objFromList_self_of_nodup kvs (cleanObj_nodup kvs hc)]

theorem sanitizeArr_of_clean : ∀ xs, cleanArr xs = true → sanitizeArr xs = xs
  | [] => fun _ => rfl
  | x :: xs => fun h => by
      have h1 := by simpa [cleanArr, Bool.and_eq_true] using h
      rw [sanitizeArr, sanitizeObject_of_clean x h1.1, sanitizeArr_of_clean xs h1.2]

theorem sanitizeObj_of_clean : ∀ kvs, cleanObj kvs = true → sanitizeObj kvs = kvs
  | [] => fun _ => rfl
  | kv :: kvs => fun h => by
      have h1 := cleanObj_parts kv kvs h
      rw [sanitizeObj, sanitizeObject_of_clean kv.2 h1.2.2.1,
        sanitizeObj_of_clean kvs h1.2.2.2,
        sanitizeKey_of_clean kv.1 (by simpa [List.all_eq_true] using h1.1)]

end

/-- C4 counterexample: in the mapping with entries `a/b` then `a_b`, both
keys sanitise to `a_b` and the later object assignment overwrites the
earlier one, so the value stored under `a/b` is dropped: the result is not
the entry-preserving key rewrite the original claim asserts. -/
theorem sanitize_collision_drops_entry :
    sanitizeObject (JVal.obj [("a/b", JVal.prim "1"), ("a_b", JVal.prim "2")])
        = JVal.obj [("a_b", JVal.prim "2")]
    ∧ sanitizeObject (JVal.obj [("a/b", JVal.prim "1"), ("a_b", JVal.prim "2")])
        ≠ JVal.obj ([("a/b", JVal.prim "1"), ("a_b", JVal.prim "2")].map
            fun kv => (sanitizeKey kv.1, sanitizeObject kv.2)) := by
  refine ⟨rfl, fun hcontra => ?_⟩
  injection hcontra with hl
  injection hl with h1 h2
  injection h2

/-- C4 (amended): sanitising a mapping rewrites each key through
`sanitizeKey` (so no key of the result contains `/`) and changes values
only by the same recursive sanitisation, but the entries are combined by
JavaScript object assignment: when two distinct keys sanitise to the same
key the later entry overwrites the earlier one (last write wins), and only
when the sanitised keys are pairwise distinct is every entry preserved; a
value that is already clean (no disallowed key character, no duplicate
keys) is returned unchanged, and `sanitizeObject` is idempotent. -/
theorem sanitize_overwrite_slash_free_idempotent :
    (∀ kvs : List (String × JVal),
        sanitizeObject (JVal.obj kvs)
          = JVal.obj (objFromList
              (kvs.map fun kv => (sanitizeKey kv.1, sanitizeObject kv.2))))
    ∧ (∀ k : String, '/' ∉ (sanitizeKey k).data)
    ∧ (∀ kvs : List (String × JVal),
        (kvs.map fun kv => sanitizeKey kv.1).Nodup →
        sanitizeObject (JVal.obj kvs)
          = JVal.obj (kvs.map fun kv => (sanitizeKey kv.1, sanitizeObject kv.2)))
    ∧ (∀ v : JVal, cleanVal v = true → sanitizeObject v = v)
    ∧ (∀ v : JVal, sanitizeObject (sanitizeObject v) = sanitizeObject v) := by
  have hmapform : ∀ kvs : List (String × JVal),
      sanitizeObject (JVal.obj kvs)
        = JVal.obj (objFromList
            (kvs.map fun kv => (sanitizeKey kv.1, sanitizeObject kv.2))) := by
    intro kvs
    rw [sanitizeObject, sanitizeObj_eq_map]
  refine ⟨hmapform, slash_not_mem_sanitizeKey, ?_, sanitizeObject_of_clean,
    sanitizeObject_idem⟩
  intro kvs hnd
  have hkeys : ((kvs.map fun kv => (sanitizeKey kv.1, sanitizeObject kv.2)).map
      Prod.fst).Nodup := by
    rw [List.map_map]
    exact hnd
  rw [hmapform kvs, objFromList_self_of_nodup _ hkeys]

/-- Witness for C4 at a concrete collision-free mapping with a `/` key. -/
theorem sanitize_overwrite_slash_free_idempotent_witness :
    ([("a/b", JVal.prim "x")].map fun kv => sanitizeKey kv.1).Nodup
    ∧ sanitizeObject (JVal.obj [("a/b", JVal.prim "x")])
        = JVal.obj ([("a/b", JVal.prim "x")].map
            fun kv => (sanitizeKey kv.1, sanitizeObject kv.2))
    ∧ cleanVal (JVal.prim "x") = true
    ∧ sanitizeObject (JVal.prim "x") = JVal.prim "x" := by
  have hnd : ([("a/b", JVal.prim "x")].map fun kv => sanitizeKey kv.1).Nodup := by
    simp
  exact ⟨hnd,
    sanitize_overwrite_slash_free_idempotent.2.2.1 [("a/b", JVal.prim "x")] hnd,
    rfl,
    sanitize_overwrite_slash_free_idempotent.2.2.2.1 (JVal.prim "x") rfl⟩

/-! ## Lemmas about the counter maps and C3 -/

theorem sumValues_bump (m : List (String × Int)) (k : String) :
    sumValues (bump m k) = sumValues m + 1 := by
  induction m with
  | nil => simp [bump, sumValues]
  | cons kv rest ih =>
      obtain ⟨k', v⟩ := kv
      by_cases h : k' = k
      · simp [bump, h, sumValues]
        ring
      · simp only [bump, if_neg h]
        simp only [sumValues, List.map_cons, List.sum_cons] at ih ⊢
        rw [ih]
        ring

theorem trackRequests_totalRequests : ∀ (reqs : List (HttpRequest × String))
    (s : Analytics),
    (trackRequests reqs s).totalRequests = s.totalRequests + reqs.length
  | [], s => by simp [trackRequests]
  | r :: reqs, s => by
      show (trackRequests reqs (trackRequest r.1 r.2 s)).totalRequests = _
      rw [trackRequests_totalRequests reqs]
      simp [trackRequest]
      ring

theorem trackRequests_sumByMethod : ∀ (reqs : List (HttpRequest × String))
    (s : Analytics),
    sumValues (trackRequests reqs s).requestsByMethod
      = sumValues s.requestsByMethod + reqs.length
  | [], s => by simp [trackRequests]
  | r :: reqs, s => by
      show sumValues (trackRequests reqs (trackRequest r.1 r.2 s)).requestsByMethod = _
      rw [trackRequests_sumByMethod reqs]
      simp [trackRequest, sumValues_bump]
      ring

/-- C3: after any sequence of `N` `trackRequest` invocations from the
default (all-zero) analytics state, `totalRequests` equals `N` and the
values of `requestsByMethod` sum to `N`. -/
theorem trackRequest_totals (now : String) (reqs : List (HttpRequest × String)) :
    (trackRequests reqs (initialAnalytics now)).totalRequests = reqs.length
    ∧ sumValues (trackRequests reqs (initialAnalytics now)).requestsByMethod
        = reqs.length := by
  constructor
  · rw [trackRequests_totalRequests]
    simp [initialAnalytics]
  · rw [trackRequests_sumByMethod]
    simp [initialAnalytics, sumValues]

/-! ## Lemmas about the recent-tool-calls ring and C2 -/

theorem take_append_take {α : Type} (A B : List α) (n : Nat) :
    (A ++ B.take n).take n = (A ++ B).take n := by
  rw [List.take_append_eq_append_take, List.take_append_eq_append_take,
    List.take_take, Nat.min_eq_left (Nat.sub_le n A.length)]

theorem recent_step_eq_take (l : List ToolCallRecord) (x : ToolCallRecord)
    (h : l.length ≤ MAX_RECENT_CALLS) :
    (if (x :: l).length > MAX_RECENT_CALLS then (x :: l).dropLast else x :: l)
      = (x :: l).take MAX_RECENT_CALLS := by
  by_cases hl : l.length = MAX_RECENT_CALLS
  · have hlen : (x :: l).length > MAX_RECENT_CALLS := by simp [hl]
    rw [if_pos hlen, List.dropLast_eq_take]
    have hlen1 : (x :: l).length - 1 = MAX_RECENT_CALLS := by simp [hl]
    rw [hlen1]
  · have hlt : l.length < MAX_RECENT_CALLS := lt_of_le_of_ne h hl
    have hlen : ¬((x :: l).length > MAX_RECENT_CALLS) := by simp; omega
    rw [if_neg hlen]
    exact (List.take_of_length_le (by simp; omega)).symm

theorem trackToolCall_recent (n : String) (r : HttpRequest) (s : Analytics)
    (h : s.recentToolCalls.length ≤ MAX_RECENT_CALLS) :
    (trackToolCall n r s).recentToolCalls
      = (mkToolCallRecord n r :: s.recentToolCalls).take MAX_RECENT_CALLS := by
  show (if (mkToolCallRecord n r :: s.recentToolCalls).length > MAX_RECENT_CALLS
      then (mkToolCallRecord n r :: s.recentToolCalls).dropLast
      else mkToolCallRecord n r :: s.recentToolCalls) = _
  exact recent_step_eq_take s.recentToolCalls (mkToolCallRecord n r) h

theorem trackToolCalls_recent : ∀ (calls : List (String × HttpRequest))
    (s : Analytics), s.recentToolCalls.length ≤ MAX_RECENT_CALLS →
    (trackToolCalls calls s).recentToolCalls
      = ((calls.map fun c => mkToolCallRecord c.1 c.2).reverse
          ++ s.recentToolCalls).take MAX_RECENT_CALLS
  | [], s => fun h => by
      simp only [trackToolCalls, List.foldl_nil, List.map_nil, List.reverse_nil,
        List.nil_append]
      exact (List.take_of_length_le h).symm
  | c :: calls, s => fun h => by
      have hstep := trackToolCall_recent c.1 c.2 s h
      have h1 : (trackToolCall c.1 c.2 s).recentToolCalls.length ≤ MAX_RECENT_CALLS := by
        rw [hstep, List.length_take]
        exact Nat.min_le_left _ _
      have ih := trackToolCalls_recent calls (trackToolCall c.1 c.2 s) h1
      show (trackToolCalls calls (trackToolCall c.1 c.2 s)).recentToolCalls = _
      rw [ih, hstep, take_append_take, List.map_cons, List.reverse_cons,
        List.append_assoc]
      rfl

/-- C2: from an empty `recentToolCalls`, any sequence of `trackToolCall`
invocations leaves the newest-first prefix of length at most 100 of the
pushed records; after 101 insertions the list is exactly records 2..101
newest first, its head is the 101st record, and the 1st record (when it
differs from the later ones) has been evicted. -/
theorem recentToolCalls_bounded_fifo (calls : List (String × HttpRequest))
    (s : Analytics) (h : s.recentToolCalls = []) :
    (trackToolCalls calls s).recentToolCalls
        = (calls.map fun c => mkToolCallRecord c.1 c.2).reverse.take MAX_RECENT_CALLS
    ∧ (trackToolCalls calls s).recentToolCalls.length ≤ MAX_RECENT_CALLS
    ∧ (calls.length = 101 →
        (trackToolCalls calls s).recentToolCalls
            = ((calls.map fun c => mkToolCallRecord c.1 c.2).drop 1).reverse
        ∧ (trackToolCalls calls s).recentToolCalls.head?
            = (calls.map fun c => mkToolCallRecord c.1 c.2).getLast?
        ∧ ∀ r : ToolCallRecord,
            (calls.map fun c => mkToolCallRecord c.1 c.2).head? = some r →
            r ∉ (calls.map fun c => mkToolCallRecord c.1 c.2).drop 1 →
            r ∉ (trackToolCalls calls s).recentToolCalls) := by
  have hlen : s.recentToolCalls.length ≤ MAX_RECENT_CALLS := by rw [h]; simp
  have hmain := trackToolCalls_recent calls s hlen
  rw [h, List.append_nil] at hmain
  refine ⟨hmain, ?_, ?_⟩
  · rw [hmain, List.length_take]
    exact Nat.min_le_left _ _
  · intro h101
    have hrl : (calls.map fun c => mkToolCallRecord c.1 c.2).length = 101 := by
      rw [List.length_map, h101]
    obtain ⟨a, t, hat⟩ : ∃ a t, (calls.map fun c => mkToolCallRecord c.1 c.2) = a :: t := by
      cases hm : calls.map fun c => mkToolCallRecord c.1 c.2 with
      | nil => rw [hm] at hrl; simp at hrl
      | cons a t => exact ⟨a, t, rfl⟩
    have htl : t.length = 100 := by
      rw [hat] at hrl
      simpa using hrl
    have heq : (trackToolCalls calls s).recentToolCalls = t.reverse := by
      rw [hmain, hat, List.reverse_cons, List.take_append_eq_append_take,
        List.take_of_length_le (le_of_eq (by rw [List.length_reverse, htl]; rfl))]
      have h0 : MAX_RECENT_CALLS - t.reverse.length = 0 := by
        rw [List.length_reverse, htl]
        rfl
      rw [h0, List.take_zero, List.append_nil]
    obtain ⟨b, t', hbt⟩ : ∃ b t', t = b :: t' := by
      cases ht : t with
      | nil => rw [ht] at htl; simp at htl
      | cons b t' => exact ⟨b, t', rfl⟩
    refine ⟨by rw [heq, hat]; rfl, ?_, ?_⟩
    · rw [heq, List.head?_reverse, hat, hbt, List.getLast?_cons_cons]
    · intro r hr hnot
      rw [heq, List.mem_reverse]
      rw [hat] at hr hnot
      simp only [List.head?_cons, Option.some.injEq] at hr
      intro hmem
      exact hnot (by rw [List.drop_one, List.tail_cons]; exact hmem)

/-- Witness for C2 at a concrete single-call sequence. -/
theorem recentToolCalls_bounded_fifo_witness :
    (initialAnalytics "T0").recentToolCalls = []
    ∧ ((trackToolCalls [("hello", sampleToolCallReq)] (initialAnalytics "T0")).recentToolCalls
          = ([("hello", sampleToolCallReq)].map
              fun c => mkToolCallRecord c.1 c.2).reverse.take MAX_RECENT_CALLS
      ∧ (trackToolCalls [("hello", sampleToolCallReq)]
            (initialAnalytics "T0")).recentToolCalls.length ≤ MAX_RECENT_CALLS) :=
  ⟨rfl,
    (recentToolCalls_bounded_fifo [("hello", sampleToolCallReq)]
      (initialAnalytics "T0") rfl).1,
    (recentToolCalls_bounded_fifo [("hello", sampleToolCallReq)]
      (initialAnalytics "T0") rfl).2.1⟩

/-! ## C1: the credential-scoped server cache -/

/-- C1: two cache resolutions with the same `apiUrl` and apiKeys agreeing
on their first 8 characters return the identical server instance; a first
call that misses inserts its freshly built server under the key
`apiUrl ++ ":" ++ apiKey.take 8`. -/
theorem cache_same_prefix_same_server (cache : ServerCache) (apiUrl k1 k2 : String)
    (hpre : k1.take 8 = k2.take 8) :
    (getOrCreateMcpServer (getOrCreateMcpServer cache apiUrl k1).2 apiUrl k2).1
        = (getOrCreateMcpServer cache apiUrl k1).1
    ∧ credentialsKey apiUrl k1 = apiUrl ++ ":" ++ k1.take 8
    ∧ (cache.entries.lookup (credentialsKey apiUrl k1) = none →
        (getOrCreateMcpServer cache apiUrl k1).2.entries.lookup
            (credentialsKey apiUrl k1)
          = some (getOrCreateMcpServer cache apiUrl k1).1) := by
  have hkey : credentialsKey apiUrl k2 = credentialsKey apiUrl k1 := by
    rw [credentialsKey, credentialsKey, hpre]
  cases hl : cache.entries.lookup (credentialsKey apiUrl k1) with
  | some sid =>
      refine ⟨?_, rfl, fun hnone => Option.noConfusion hnone⟩
      simp [getOrCreateMcpServer, hl, hkey]
  | none =>
      refine ⟨?_, rfl, fun hnone => ?_⟩
      · simp [getOrCreateMcpServer, hl, hkey, List.lookup]
      · simp [getOrCreateMcpServer, hl, List.lookup]

/-- Witness for C1: two distinct keys sharing an 8-character prefix,
resolved against the empty cache. -/
theorem cache_same_prefix_same_server_witness :
    "abcdefgh-one".take 8 = "abcdefgh-two".take 8
    ∧ (getOrCreateMcpServer
          (getOrCreateMcpServer emptyCache "https://plausible.io" "abcdefgh-one").2
          "https://plausible.io" "abcdefgh-two").1
        = (getOrCreateMcpServer emptyCache "https://plausible.io" "abcdefgh-one").1
    ∧ (getOrCreateMcpServer emptyCache "https://plausible.io" "abcdefgh-one").2.entries.lookup
          (credentialsKey "https://plausible.io" "abcdefgh-one")
        = some (getOrCreateMcpServer emptyCache "https://plausible.io" "abcdefgh-one").1 := by
  have hpre : "abcdefgh-one".take 8 = "abcdefgh-two".take 8 := by decide
  have h := cache_same_prefix_same_server emptyCache "https://plausible.io"
    "abcdefgh-one" "abcdefgh-two" hpre
  exact ⟨hpre, h.1, h.2.2 rfl⟩

/-! ## C5: the local-file round trip -/

/-- C5 (amended): in local-file-only mode, saving then loading reproduces
every field, with `serverStartTime` preserved from the saved value rather
than re-stamped — provided the saved `serverStartTime` is non-empty
(truthy); an empty `serverStartTime` falls through the `||` on line 109
and is re-stamped. -/
theorem saveLoad_roundTrip_local (s cur : Analytics) (now : String)
    (prevRemote prevLocal : Option Analytics) (h : s.serverStartTime ≠ "") :
    loadAnalytics false none
      (saveAnalytics false false false s prevRemote prevLocal).localFileContents
      now cur = s := by
  show loadFromLocalFile (some s) now cur = s
  rw [loadFromLocalFile, if_neg h]

/-- Witness for C5 at a concrete state with a truthy start time. -/
theorem saveLoad_roundTrip_local_witness :
    (initialAnalytics "2026-01-01T00:00:00.000Z").serverStartTime ≠ ""
    ∧ loadAnalytics false none
        (saveAnalytics false false false (initialAnalytics "2026-01-01T00:00:00.000Z")
          none none).localFileContents
        "2026-02-02T00:00:00.000Z" (initialAnalytics "X")
      = initialAnalytics "2026-01-01T00:00:00.000Z" :=
  ⟨by decide,
    saveLoad_roundTrip_local (initialAnalytics "2026-01-01T00:00:00.000Z")
      (initialAnalytics "X") "2026-02-02T00:00:00.000Z" none none (by decide)⟩

/-- C5 counterexample: a state whose `serverStartTime` is the empty string
is re-stamped with the fresh timestamp on load, so the round trip is not
the identity on every state. -/
theorem saveLoad_roundTrip_restamps_empty_start :
    loadAnalytics false none
      (saveAnalytics false false false emptyStartState none none).localFileContents
      "2026-02-02T00:00:00.000Z" (initialAnalytics "X")
      ≠ emptyStartState := by
  decide

/-! ## C6 and C7: discovery and missing-credential handling -/

theorem discovery_method_ne_empty {m : String} (h : isDiscoveryMethod m = true) :
    decide (m ≠ "") = true := by
  simp only [isDiscoveryMethod, Bool.or_eq_true, decide_eq_true_eq] at h
  rcases h with (h | h) | h <;> subst h <;> decide

/-- C6: a request whose resolved apiKey is empty and whose body method is
a discovery method is served by a freshly constructed throwaway demo
server (a new identity, one construction) and the credential cache's
contents are unchanged. -/
theorem discovery_demo_not_cached (dk du : String) (req : HttpRequest)
    (s : Analytics) (cache : ServerCache) (m : String)
    (hkey : orDefault req.query_apiKey (orDefault req.header_apiKey dk) = "")
    (hm : req.body_method = some m) (hdisc : isDiscoveryMethod m = true) :
    (handleMcp dk du req s cache).demoServed = true
    ∧ (handleMcp dk du req s cache).serversCreated = 1
    ∧ (handleMcp dk du req s cache).cache.entries = cache.entries
    ∧ (handleMcp dk du req s cache).response = McpResponse.handled cache.nextId
    ∧ (handleMcp dk du req s cache).cache.nextId = cache.nextId + 1 := by
  simp [handleMcp, hm, hkey, hdisc, discovery_method_ne_empty hdisc]

/-- Witness for C6 at a concrete credential-less `tools/list` request. -/
theorem discovery_demo_not_cached_witness :
    orDefault sampleDiscoveryReq.query_apiKey
        (orDefault sampleDiscoveryReq.header_apiKey "") = ""
    ∧ sampleDiscoveryReq.body_method = some "tools/list"
    ∧ isDiscoveryMethod "tools/list" = true
    ∧ (handleMcp "" "https://plausible.io" sampleDiscoveryReq
          (initialAnalytics "T") emptyCache).demoServed = true
    ∧ (handleMcp "" "https://plausible.io" sampleDiscoveryReq
          (initialAnalytics "T") emptyCache).cache.entries = emptyCache.entries :=
  ⟨rfl, rfl, rfl,
    (discovery_demo_not_cached "" "https://plausible.io" sampleDiscoveryReq
      (initialAnalytics "T") emptyCache "tools/list" rfl rfl rfl).1,
    (discovery_demo_not_cached "" "https://plausible.io" sampleDiscoveryReq
      (initialAnalytics "T") emptyCache "tools/list" rfl rfl rfl).2.2.1⟩

/-- C7: a request whose resolved apiKey is empty and whose body method is
not a discovery method (or has no body method) is answered with the
structured 400 before any server or transport is constructed and without
touching the cache. -/
theorem missing_key_rejected (dk du : String) (req : HttpRequest)
    (s : Analytics) (cache : ServerCache)
    (hkey : orDefault req.query_apiKey (orDefault req.header_apiKey dk) = "")
    (hnd : ∀ m, req.body_method = some m → isDiscoveryMethod m = false) :
    (handleMcp dk du req s cache).response = McpResponse.missingApiKey400
    ∧ (handleMcp dk du req s cache).serversCreated = 0
    ∧ (handleMcp dk du req s cache).transportsCreated = 0
    ∧ (handleMcp dk du req s cache).cache = cache
    ∧ (handleMcp dk du req s cache).demoServed = false := by
  cases hbm : req.body_method with
  | none => simp [handleMcp, hbm, hkey]
  | some m =>
      have hm := hnd m hbm
      simp [handleMcp, hbm, hkey, hm]

/-- Witness for C7 at a concrete credential-less bodyless request. -/
theorem missing_key_rejected_witness :
    orDefault sampleBodylessReq.query_apiKey
        (orDefault sampleBodylessReq.header_apiKey "") = ""
    ∧ (handleMcp "" "https://plausible.io" sampleBodylessReq
          (initialAnalytics "T") emptyCache).response = McpResponse.missingApiKey400
    ∧ (handleMcp "" "https://plausible.io" sampleBodylessReq
          (initialAnalytics "T") emptyCache).serversCreated = 0 :=
  ⟨rfl,
    (missing_key_rejected "" "https://plausible.io" sampleBodylessReq
      (initialAnalytics "T") emptyCache rfl
      (fun m h => by rw [show sampleBodylessReq.body_method = none from rfl] at h; cases h)).1,
    (missing_key_rejected "" "https://plausible.io" sampleBodylessReq
      (initialAnalytics "T") emptyCache rfl
      (fun m h => by rw [show sampleBodylessReq.body_method = none from rfl] at h; cases h)).2.1⟩

/-! ## C8: counter monotonicity -/

/-- C8 (amended): `totalRequests` and `totalToolCalls` are non-decreasing
under `trackRequest` and `trackToolCall` unconditionally, and under the
`POST /analytics/import` handler provided each submitted counter value is
non-negative — the handler performs no sign validation, so a negative
submitted value decreases the counter. -/
theorem counters_monotone :
    (∀ (req : HttpRequest) (ep : String) (s : Analytics),
        s.totalRequests ≤ (trackRequest req ep s).totalRequests
        ∧ s.totalToolCalls ≤ (trackRequest req ep s).totalToolCalls)
    ∧ (∀ (n : String) (req : HttpRequest) (s : Analytics),
        s.totalRequests ≤ (trackToolCall n req s).totalRequests
        ∧ s.totalToolCalls ≤ (trackToolCall n req s).totalToolCalls)
    ∧ (∀ (req : HttpRequest) (btr btc : Option Int) (s : Analytics),
        (∀ v ∈ btr, 0 ≤ v) → (∀ v ∈ btc, 0 ≤ v) →
        s.totalRequests ≤ (handleAnalyticsImport req btr btc s).totalRequests
        ∧ s.totalToolCalls ≤ (handleAnalyticsImport req btr btc s).totalToolCalls) := by
  refine ⟨fun req ep s => ⟨?_, ?_⟩, fun n req s => ⟨?_, ?_⟩,
    fun req btr btc s h1 h2 => ?_⟩
  · simp only [trackRequest]
    omega
  · simp only [trackRequest]
    omega
  · simp only [trackToolCall]
    omega
  · simp only [trackToolCall]
    omega
  · have hb1 : ∀ v, btr = some v → 0 ≤ v := fun v hv => h1 v (hv ▸ rfl)
    have hb2 : ∀ v, btc = some v → 0 ≤ v := fun v hv => h2 v (hv ▸ rfl)
    rcases btr with _ | v1 <;> rcases btc with _ | v2 <;>
      simp only [handleAnalyticsImport, importMerge, trackRequest]
    · constructor <;> (dsimp only; omega)
    · have hv2 := hb2 v2 rfl
      split_ifs <;> constructor <;> (dsimp only; omega)
    · have hv1 := hb1 v1 rfl
      split_ifs <;> constructor <;> (dsimp only; omega)
    · have hv1 := hb1 v1 rfl
      have hv2 := hb2 v2 rfl
      split_ifs <;> constructor <;> (dsimp only; omega)

/-- Witness for C8's import clause at concrete non-negative values. -/
theorem counters_monotone_witness :
    (∀ v ∈ (some (3 : Int)), 0 ≤ v) ∧ (∀ v ∈ (none : Option Int), 0 ≤ v)
    ∧ ((initialAnalytics "T").totalRequests
        ≤ (handleAnalyticsImport sampleBodylessReq (some 3) none
            (initialAnalytics "T")).totalRequests
      ∧ (initialAnalytics "T").totalToolCalls
        ≤ (handleAnalyticsImport sampleBodylessReq (some 3) none
            (initialAnalytics "T")).totalToolCalls) := by
  have h1 : ∀ v ∈ (some (3 : Int)), 0 ≤ v := by
    intro v hv
    rw [Option.mem_def] at hv
    injection hv with h
    omega
  have h2 : ∀ v ∈ (none : Option Int), 0 ≤ v := by
    intro v hv
    cases hv
  exact ⟨h1, h2,
    counters_monotone.2.2 sampleBodylessReq (some 3) none (initialAnalytics "T") h1 h2⟩

/-- C8 counterexample: importing a body with `totalRequests = -2` makes
`totalRequests` strictly decrease across the import handler, refuting the
unconditional monotonicity claim. -/
theorem import_negative_decreases_counters :
    (handleAnalyticsImport sampleBodylessReq (some (-2)) none
        (initialAnalytics "T")).totalRequests
      < (initialAnalytics "T").totalRequests := by
  decide

/-! ## C9: the local write in saveAnalytics is unconditional -/

/-- C9: on every save — Firebase initialised or not, remote `set` failing
or not, local write failing or not — the local-file write of the
unsanitised state is attempted, the remote layer never throws, no error
reaches the caller, and when the local write succeeds the file holds
exactly the in-memory (unsanitised) state. -/
theorem saveAnalytics_local_write_unconditional
    (initialized setFails localFails : Bool) (s : Analytics)
    (prevRemote prevLocal : Option Analytics) :
    (saveAnalytics initialized setFails localFails s prevRemote prevLocal).localWriteAttempted
        = true
    ∧ (saveAnalytics initialized setFails localFails s prevRemote prevLocal).raised = false
    ∧ (saveAnalytics initialized setFails localFails s prevRemote prevLocal).localFileContents
        = (if localFails then prevLocal else some s)
    ∧ (saveAnalytics initialized setFails localFails s prevRemote prevLocal).remote.threw
        = false
    ∧ (firebaseSaveAnalytics initialized setFails (sanitizeAnalytics s) prevRemote).threw
        = false := by
  cases initialized <;> cases setFails <;> cases localFails <;>
    simp [saveAnalytics, firebaseSaveAnalytics, writeLocalFile]

/-! ## C10: tools/call analytics are recorded before credential validation -/

theorem trackToolCall_head (n : String) (r : HttpRequest) (s : Analytics) :
    (trackToolCall n r s).recentToolCalls.head? = some (mkToolCallRecord n r) := by
  show (if (mkToolCallRecord n r :: s.recentToolCalls).length > MAX_RECENT_CALLS
      then (mkToolCallRecord n r :: s.recentToolCalls).dropLast
      else mkToolCallRecord n r :: s.recentToolCalls).head? = _
  cases hrt : s.recentToolCalls with
  | nil => rfl
  | cons y t =>
      by_cases hlen : (mkToolCallRecord n r :: y :: t).length > MAX_RECENT_CALLS
      · rw [if_pos hlen, List.dropLast_cons₂]
        rfl
      · rw [if_neg hlen]
        rfl

/-- C10: a credential-less `tools/call` request is rejected with the 400,
yet its `trackRequest`/`trackToolCall` increments — run before credential
validation — remain in the analytics state: both totals are up by one and
the new record heads `recentToolCalls`; the cache is untouched. -/
theorem toolsCall_tracked_before_credential_check (dk du : String)
    (req : HttpRequest) (s : Analytics) (cache : ServerCache) (n : String)
    (hm : req.body_method = some "tools/call")
    (hn : req.body_paramsName = some n) (hne : n ≠ "")
    (hkey : orDefault req.query_apiKey (orDefault req.header_apiKey dk) = "") :
    (handleMcp dk du req s cache).response = McpResponse.missingApiKey400
    ∧ (handleMcp dk du req s cache).analytics.totalRequests = s.totalRequests + 1
    ∧ (handleMcp dk du req s cache).analytics.totalToolCalls = s.totalToolCalls + 1
    ∧ (handleMcp dk du req s cache).analytics.recentToolCalls.head?
        = some (mkToolCallRecord n req)
    ∧ (handleMcp dk du req s cache).cache = cache := by
  have hname : toolCallNameOf req = some n := by
    simp [toolCallNameOf, hm, hn, hne]
  have hnotdisc : isDiscoveryMethod "tools/call" = false := by decide
  have hana : (handleMcp dk du req s cache).analytics
      = trackToolCall n req (trackRequest req "/mcp" s) := by
    simp [handleMcp, hm, hkey, hname, hnotdisc]
  refine ⟨?_, ?_, ?_, ?_, ?_⟩
  · simp [handleMcp, hm, hkey, hname, hnotdisc]
  · rw [hana]
    simp [trackToolCall, trackRequest]
  · rw [hana]
    simp [trackToolCall, trackRequest]
  · rw [hana, trackToolCall_head]
  · simp [handleMcp, hm, hkey, hname, hnotdisc]

/-- Witness for C10 at a concrete credential-less `tools/call` request. -/
theorem toolsCall_tracked_before_credential_check_witness :
    sampleToolCallReq.body_method = some "tools/call"
    ∧ sampleToolCallReq.body_paramsName = some "hello"
    ∧ ("hello" : String) ≠ ""
    ∧ (handleMcp "" "https://plausible.io" sampleToolCallReq
          (initialAnalytics "T") emptyCache).response = McpResponse.missingApiKey400
    ∧ (handleMcp "" "https://plausible.io" sampleToolCallReq
          (initialAnalytics "T") emptyCache).analytics.totalToolCalls
        = (initialAnalytics "T").totalToolCalls + 1 :=
  ⟨rfl, rfl, by decide,
    (toolsCall_tracked_before_credential_check "" "https://plausible.io"
      sampleToolCallReq (initialAnalytics "T") emptyCache "hello" rfl rfl
      (by decide) rfl).1,
    (toolsCall_tracked_before_credential_check "" "https://plausible.io"
      sampleToolCallReq (initialAnalytics "T") emptyCache "hello" rfl rfl
      (by decide) rfl).2.2.1⟩

end McpPlausible
